import Mathlib

/-!
Verification development for the `wc_lang` expression resolution and
validation engine and the expression-bearing model classes of
`wc_lang/core.py`.

Two layers are embedded:

* `WcExpr` — the expression engine (lexer, identifier matcher, token
  classifier, linear-form validator, evaluator guard).  The engine source
  (`wc_lang/expression_utils.py`, imported by `core.py`) is not present in
  the repository snapshot; every definition in this namespace is modelled
  from the specification (sections 2, 4, 7 of the spec), with the raising
  behaviour of the host-grammar check taken from the repository's own tests
  (`tests/test_expression.py`).

* `WcCore` — shallow embedding of `ObjectiveFunction`, `RateLawEquation`,
  `FunctionExpression`, `Species` and `Parameter` (de)serialization from
  `wc_lang/core.py`, including the regex-based identifier extraction and
  the interning of parsed objects in the `objects` registry.
-/

/-- Decidable equality for `Except`, used to evaluate concrete runs of the
fallible operations. -/
instance {ε α : Type} [DecidableEq ε] [DecidableEq α] : DecidableEq (Except ε α) :=
  fun x y =>
    match x, y with
    | .ok a, .ok b =>
      if h : a = b then isTrue (by rw [h])
      else isFalse (by intro hc; cases hc; exact h rfl)
    | .error a, .error b =>
      if h : a = b then isTrue (by rw [h])
      else isFalse (by intro hc; cases hc; exact h rfl)
    | .ok _, .error _ => isFalse (by intro hc; cases hc)
    | .error _, .ok _ => isFalse (by intro hc; cases hc)

/-- Model of `wc_utils.util.list.det_dedupe` (auxiliary): deterministic
deduplication that keeps the first occurrence of each element, carrying the
set of elements already seen. -/
def detDedupeAux {α : Type} [DecidableEq α] : List α → List α → List α
  | [], _ => []
  | x :: xs, seen =>
    if x ∈ seen then detDedupeAux xs seen else x :: detDedupeAux xs (x :: seen)

/-- Model of `wc_utils.util.list.det_dedupe`: deduplicate a list, keeping
elements in the order of their first occurrence. -/
def detDedupe {α : Type} [DecidableEq α] (l : List α) : List α :=
  detDedupeAux l []

/-- ASCII identifier character (`[a-z0-9_]` under case-insensitive
matching). -/
def isIdChar (c : Char) : Bool :=
  c.isAlphanum || c == '_'

/-- ASCII identifier start character (`[a-z_]` under case-insensitive
matching). -/
def isSlugStart (c : Char) : Bool :=
  c.isAlpha || c == '_'

namespace WcExpr

/-- Modelled from the spec (section 4.1): the missing lexer produces a flat
stream of low-level lexical tokens — names, numbers, operators,
parentheses/brackets, dots, commas — plus bad tokens for anything that
cannot appear in this grammar. -/
inductive LexToken where
  | name (s : String)
  | num (s : String)
  | op (s : String)
  | lparen
  | rparen
  | lbrack
  | rbrack
  | dot
  | comma
  | bad (s : String)
deriving DecidableEq, Repr

/-- Modelled from the spec (section 3): the discriminant of an annotated
token — numeric literal, operator/punctuation, math/function identifier,
resolved object reference, or other. -/
inductive ObjTokenCode where
  | number
  | op
  | mathFuncId
  | objId
  | other
deriving DecidableEq, Repr

/-- Modelled from the spec (section 3): an annotated token is an immutable
tuple of a discriminant, the exact source substring it was lexed from and —
only for resolved references — the category and stored identifier it
resolved to.  Two annotated tokens are equal iff all fields are equal. -/
structure ObjToken where
  code : ObjTokenCode
  tokenString : String
  modelType : Option String := none
  modelId : Option String := none
deriving DecidableEq, Repr

/-- Modelled from the spec (section 3): the symbol table is a mapping from
category (identified by its type name) to the identifier strings stored in
that category. -/
def SymbolTable := List (String × List String)

/-- Identifiers stored under a category of the symbol table. -/
def SymbolTable.idsOf (t : SymbolTable) (cat : String) : List String :=
  match t.find? (fun e => e.1 == cat) with
  | some e => e.2
  | none => []

/-- Modelled from the spec (sections 3 and 6): the expression-owner
contract — the categories of identifier the owner may reference and the
whitelist of callable function names (`none` when the owner declares no
whitelist at all). -/
structure Owner where
  allowed : List String
  validFunctions : Option (List String)

/-- ASCII lower-casing of one character. -/
def lowerChar (c : Char) : Char :=
  if 'A' ≤ c ∧ c ≤ 'Z' then Char.ofNat (c.toNat + 32) else c

/-- ASCII lower-casing of a string (the case-fold key of the lookup). -/
def strToLower (s : String) : String :=
  String.mk (s.toList.map lowerChar)

/-- Modelled from the spec (section 4.2): symbol-table lookup of an
identifier in one category.  When case-fold matching is enabled the lookup
compares lower-cased keys; the stored identifier is returned. -/
def lookupId (t : SymbolTable) (cat : String) (x : String) (caseFold : Bool) :
    Option String :=
  (t.idsOf cat).find?
    (fun s => if caseFold then strToLower s == strToLower x else s == x)

/-- Modelled from the spec (section 4.2): a lexical match — the number of
low-level tokens consumed and the annotated tokens produced. -/
structure LexMatch where
  numConsumed : Nat
  tokens : List ObjToken
deriving DecidableEq, Repr

/-- Modelled from the spec (section 4.2): the result of one resolution
strategy — no match (fall through), an error that fails the whole parse, or
a lexical match. -/
inductive StrategyResult where
  | noMatch
  | err (msgs : List String)
  | found (m : LexMatch)
deriving DecidableEq, Repr

/-- Error message for a `Type.id` disambiguation whose type the owner
cannot reference. -/
def disallowedTypeMsg (tn : String) : String :=
  "the disambiguation model type " ++ tn ++ " cannot be referenced by these expressions"

/-- Error message for a `Type.id` disambiguation whose member is missing. -/
def missingMemberMsg (tn i : String) : String :=
  i ++ " is not the id of a " ++ tn

/-- Modelled from the spec (section 4.2, strategy 1): disambiguated
reference `TypeName.identifier`.  Succeeds only if `TypeName` is a category
the owner may reference and `identifier` exists in that category
(optionally case-folded); a present `TypeName.identifier` pattern that
fails either check is a failure mode that fails the whole parse. -/
def disambigId (o : Owner) (t : SymbolTable) (caseFold : Bool) :
    List LexToken → StrategyResult
  | .name tn :: .dot :: .name i :: _ =>
    if tn ∈ o.allowed then
      match lookupId t tn i caseFold with
      | some s =>
        .found ⟨3, [⟨.objId, tn ++ "." ++ i, some tn, some s⟩]⟩
      | none => .err [missingMemberMsg tn i]
    else
      .err [disallowedTypeMsg tn]
  | _ => .noMatch

/-- All `(category, stored id)` pairs a bare identifier matches among the
categories the owner may reference. -/
def bareMatches (o : Owner) (t : SymbolTable) (caseFold : Bool) (x : String) :
    List (String × String) :=
  o.allowed.filterMap (fun c => (lookupId t c x caseFold).map (fun s => (c, s)))

/-- The ambiguous-identifier error message, enumerating every matching
`(category, id)` pair. -/
def ambiguousMsg (x : String) (pairs : List (String × String)) : String :=
  "contains multiple model object id matches for " ++ x ++ ": " ++
    String.intercalate ", " (pairs.map (fun p => p.2 ++ " as a " ++ p.1 ++ " id"))

/-- Modelled from the spec (section 4.2, strategy 2): bare identifier
reference.  A plain name is matched against all allowed categories
simultaneously; exactly one match resolves, two or more fail the whole
parse with an ambiguous-identifier error naming every matching pair, and
zero matches fall through to the next strategy.  The annotated token keeps
the original source casing while its id field holds the stored
identifier. -/
def relatedObjId (o : Owner) (t : SymbolTable) (caseFold : Bool) :
    List LexToken → StrategyResult
  | .name x :: _ =>
    match bareMatches o t caseFold x with
    | [] => .noMatch
    | [(c, s)] => .found ⟨1, [⟨.objId, x, some c, some s⟩]⟩
    | pairs => .err [ambiguousMsg x pairs]
  | _ => .noMatch

/-- Error message for a function call whose name is not whitelisted. -/
def notAFunctionMsg (f : String) : String :=
  "contains the func name " ++ f ++ ", but it is not a valid function"

/-- Error message for an owner that declares no function whitelist. -/
def noWhitelistMsg : String :=
  "the expression owner does not define valid functions"

/-- Modelled from the spec (section 4.2, strategy 3): function-call
identifier — a name immediately followed by an opening parenthesis.
Succeeds only if the name is in the owner's whitelist of callable function
names; the match consumes the name and the parenthesis as two tokens.  A
missing whitelist is a configuration error. -/
def funcCallId (o : Owner) : List LexToken → StrategyResult
  | .name f :: .lparen :: _ =>
    match o.validFunctions with
    | none => .err [noWhitelistMsg]
    | some fns =>
      if f ∈ fns then
        .found ⟨2, [⟨.mathFuncId, f, none, none⟩, ⟨.op, "(", none, none⟩]⟩
      else
        .err [notAFunctionMsg f]
  | _ => .noMatch

/-- Error message for an identifier resolved by no strategy. -/
def unresolvedMsg (x : String) : String :=
  "contains the identifier " ++ x ++ ", which is not the id of an object"

/-- Modelled from the spec (section 4.2): the result of the dispatcher at
one name position — a match, or the errors that fail the whole parse. -/
inductive DispatchResult where
  | found (m : LexMatch)
  | errs (msgs : List String)
deriving DecidableEq, Repr

/-- The error messages of a strategy result (empty unless it errored). -/
def StrategyResult.errsOf : StrategyResult → List String
  | .err msgs => msgs
  | _ => []

/-- Modelled from the spec (section 4.2): the identifier matcher tries the
three strategies strictly in the order disambiguated reference, bare
identifier, function-call identifier, and returns the result of the first
strategy that produces a match; a strategy's internal failure (ambiguity,
bad disambiguation, bad function name) fails the whole parse, with the
failure messages of the remaining strategies collected as well; when no
strategy matches or errs the identifier is reported as unresolved. -/
def dispatch (o : Owner) (t : SymbolTable) (caseFold : Bool) (x : String)
    (toks : List LexToken) : DispatchResult :=
  match disambigId o t caseFold toks with
  | .found m => .found m
  | .err e1 =>
    .errs (e1 ++ (relatedObjId o t caseFold toks).errsOf ++ (funcCallId o toks).errsOf)
  | .noMatch =>
    match relatedObjId o t caseFold toks with
    | .found m => .found m
    | .err e2 => .errs (e2 ++ (funcCallId o toks).errsOf)
    | .noMatch =>
      match funcCallId o toks with
      | .found m => .found m
      | .err e3 => .errs e3
      | .noMatch => .errs [unresolvedMsg x]

/-- Error message for a low-level token that cannot appear in this
grammar. -/
def badTokenMsg (s : String) : String :=
  "contains bad token(s): " ++ s

/-- The bad low-level tokens of a lexed stream. -/
def badTokens (toks : List LexToken) : List String :=
  toks.filterMap (fun tok => match tok with | .bad s => some s | _ => none)

/-- The annotated token produced directly for a non-name lexical token. -/
def directToken : LexToken → ObjToken
  | .num s => ⟨.number, s, none, none⟩
  | .op s => ⟨.op, s, none, none⟩
  | .lparen => ⟨.op, "(", none, none⟩
  | .rparen => ⟨.op, ")", none, none⟩
  | .lbrack => ⟨.op, "[", none, none⟩
  | .rbrack => ⟨.op, "]", none, none⟩
  | .dot => ⟨.op, ".", none, none⟩
  | .comma => ⟨.op, ",", none, none⟩
  | .name s => ⟨.other, s, none, none⟩
  | .bad s => ⟨.other, s, none, none⟩

/-- Modelled from the spec (section 4.3): the token classifier drives the
lexed stream position by position; at each name position it invokes the
identifier matcher, and non-name tokens are classified directly by their
lexical kind.  The second argument counts tokens already consumed by the
match at an earlier position.  It returns the annotated stream together
with every error collected along the walk (an erroring name position is
skipped one token at a time so that later errors are collected too). -/
def tokAux (o : Owner) (t : SymbolTable) (caseFold : Bool) :
    List LexToken → Nat → List ObjToken × List String
  | [], _ => ([], [])
  | _ :: rest, skip + 1 => tokAux o t caseFold rest skip
  | .name x :: rest, 0 =>
    match dispatch o t caseFold x (.name x :: rest) with
    | .found m =>
      let r := tokAux o t caseFold rest (m.numConsumed - 1)
      (m.tokens ++ r.1, r.2)
    | .errs es =>
      let r := tokAux o t caseFold rest 0
      (r.1, es ++ r.2)
  | .bad s :: rest, 0 =>
    let r := tokAux o t caseFold rest 0
    (r.1, badTokenMsg s :: r.2)
  | tok :: rest, 0 =>
    let r := tokAux o t caseFold rest 0
    (directToken tok :: r.1, r.2)

/-- The classifier's walk over a whole lexed stream. -/
def tokenizeAux (o : Owner) (t : SymbolTable) (caseFold : Bool)
    (toks : List LexToken) : List ObjToken × List String :=
  tokAux o t caseFold toks 0

/-- The suffix of the lexed stream at which the classifier's walk continues
after processing the current position. -/
def nextSuffix (o : Owner) (t : SymbolTable) (caseFold : Bool) :
    List LexToken → List LexToken
  | [] => []
  | .name x :: rest =>
    match dispatch o t caseFold x (.name x :: rest) with
    | .found m => rest.drop (m.numConsumed - 1)
    | .errs _ => rest
  | _ :: rest => rest

/-- Relation `Scans o t cf l s`: the classifier's walk over the lexed stream `l`
visits the suffix `s`. -/
inductive Scans (o : Owner) (t : SymbolTable) (caseFold : Bool) :
    List LexToken → List LexToken → Prop where
  | refl (l : List LexToken) : Scans o t caseFold l l
  | step {l s : List LexToken} : Scans o t caseFold l s → s ≠ [] →
      Scans o t caseFold l (nextSuffix o t caseFold s)

/-- The `(category, stored id)` pair of a resolved-reference token. -/
def ObjToken.objPair (tok : ObjToken) : Option (String × String) :=
  match tok.code, tok.modelType, tok.modelId with
  | .objId, some c, some i => some (c, i)
  | _, _, _ => none

/-- Modelled from the spec (sections 3 and 4.3): the per-category resolved
objects derived from the annotated stream — deduplicated and
insertion-order preserving. -/
def relatedObjects (ts : List ObjToken) : List (String × String) :=
  detDedupe (ts.filterMap ObjToken.objPair)

/-- Modelled from the spec (section 4.2 and 4.4): classify a lexed stream,
collecting every bad token and every identifier-resolution error into a
single aggregate list of messages; success returns the annotated stream and
the deduplicated resolved-object pairs. -/
def tokenize (o : Owner) (t : SymbolTable) (caseFold : Bool)
    (toks : List LexToken) :
    Except (List String) (List ObjToken × List (String × String)) :=
  let bads := badTokens toks
  if bads.isEmpty then
    let r := tokenizeAux o t caseFold toks
    if r.2.isEmpty then .ok (r.1, relatedObjects r.1) else .error r.2
  else
    .error (bads.map badTokenMsg)

/-- Whitespace, for Python `str.strip`. -/
def isSpaceChar (c : Char) : Bool :=
  c == ' ' || c == '\t' || c == '\n' || c == '\r'

/-- Model of Python `str.strip()`: remove leading and trailing
whitespace. -/
def strip (s : String) : String :=
  String.mk (((s.toList.dropWhile isSpaceChar).reverse.dropWhile isSpaceChar).reverse)

/-- Consume the exponent part of a numeric literal, when present. -/
def takeExp (cs : List Char) : List Char × List Char :=
  match cs with
  | e :: rest =>
    if e == 'e' || e == 'E' then
      match rest with
      | s :: rest2 =>
        if s == '+' || s == '-' then
          match rest2 with
          | d :: _ =>
            if d.isDigit then
              (e :: s :: rest2.takeWhile Char.isDigit, rest2.dropWhile Char.isDigit)
            else ([], cs)
          | [] => ([], cs)
        else if s.isDigit then
          (e :: rest.takeWhile Char.isDigit, rest.dropWhile Char.isDigit)
        else ([], cs)
      | [] => ([], cs)
    else ([], cs)
  | [] => ([], cs)

/-- Consume a numeric literal (integer part, optional fraction, optional
exponent) from the head of the character stream. -/
def takeNum (cs : List Char) : List Char × List Char :=
  let d1 := cs.takeWhile Char.isDigit
  let r1 := cs.dropWhile Char.isDigit
  let (d2, r2) :=
    match r1 with
    | '.' :: rest => ('.' :: rest.takeWhile Char.isDigit, rest.dropWhile Char.isDigit)
    | _ => ([], r1)
  let (d3, r3) := takeExp r2
  (d1 ++ d2 ++ d3, r3)

/-- Modelled from the spec (section 4.1): the lexer wraps a
general-purpose arithmetic tokenizer.  Names, numbers, operators,
parentheses, brackets, dots and commas are produced; any other character is
a bad token.  The fuel argument bounds the recursion and always suffices
for the initial call (at least one character is consumed per step). -/
def lexAux : Nat → List Char → List LexToken
  | 0, _ => []
  | _ + 1, [] => []
  | fuel + 1, c :: cs =>
    if c == ' ' || c == '\t' || c == '\n' || c == '\r' then
      lexAux fuel cs
    else if isSlugStart c then
      .name (String.mk (c :: cs.takeWhile isIdChar)) :: lexAux fuel (cs.dropWhile isIdChar)
    else if c.isDigit then
      let (num, rest) := takeNum (c :: cs)
      .num (String.mk num) :: lexAux fuel rest
    else if c == '(' then .lparen :: lexAux fuel cs
    else if c == ')' then .rparen :: lexAux fuel cs
    else if c == '[' then .lbrack :: lexAux fuel cs
    else if c == ']' then .rbrack :: lexAux fuel cs
    else if c == '.' then .dot :: lexAux fuel cs
    else if c == ',' then .comma :: lexAux fuel cs
    else if c == '+' || c == '-' || c == '*' || c == '/' || c == '%' || c == '<' || c == '>' then
      .op (String.singleton c) :: lexAux fuel cs
    else
      .bad (String.singleton c) :: lexAux fuel cs

/-- Lex an expression string into low-level tokens. -/
def lex (s : String) : List LexToken :=
  lexAux s.length s.toList

/-- Parentheses and brackets of the lexed stream are balanced; the
general-purpose tokenizer fails on a stream with unclosed brackets. -/
def bracketsBalancedAux : List LexToken → List Char → Bool
  | [], stack => stack.isEmpty
  | .lparen :: rest, stack => bracketsBalancedAux rest (')' :: stack)
  | .lbrack :: rest, stack => bracketsBalancedAux rest (']' :: stack)
  | .rparen :: rest, stack =>
    match stack with
    | ')' :: stack2 => bracketsBalancedAux rest stack2
    | _ => false
  | .rbrack :: rest, stack =>
    match stack with
    | ']' :: stack2 => bracketsBalancedAux rest stack2
    | _ => false
  | _ :: rest, stack => bracketsBalancedAux rest stack

/-- Parentheses and brackets of the lexed stream are balanced. -/
def bracketsBalanced (toks : List LexToken) : Bool :=
  bracketsBalancedAux toks []

/-- Modelled from the host grammar (the Python expression compiler, as
exercised by the repository's tests): an operand/operator automaton with a
bracket stack.  The `afterOperand` flag is false when an operand is
expected; the fuel always suffices for the initial call. -/
def pyOkAux : Nat → List LexToken → Bool → List Char → Bool
  | 0, _, _, _ => false
  | _ + 1, [], afterOperand, stack => afterOperand && stack.isEmpty
  | fuel + 1, tok :: rest, false, stack =>
    match tok with
    | .num _ => pyOkAux fuel rest true stack
    | .name _ => pyOkAux fuel rest true stack
    | .lparen => pyOkAux fuel rest false (')' :: stack)
    | .lbrack => pyOkAux fuel rest false (']' :: stack)
    | .op s => if s == "+" || s == "-" then pyOkAux fuel rest false stack else false
    | _ => false
  | fuel + 1, tok :: rest, true, stack =>
    match tok with
    | .op _ => pyOkAux fuel rest false stack
    | .comma => pyOkAux fuel rest false stack
    | .dot =>
      match rest with
      | .name _ :: rest2 => pyOkAux fuel rest2 true stack
      | _ => false
    | .lparen => pyOkAux fuel rest false (')' :: stack)
    | .lbrack => pyOkAux fuel rest false (']' :: stack)
    | .rparen =>
      match stack with
      | ')' :: stack2 => pyOkAux fuel rest true stack2
      | _ => false
    | .rbrack =>
      match stack with
      | ']' :: stack2 => pyOkAux fuel rest true stack2
      | _ => false
    | _ => false

/-- The lexed stream compiles under the host grammar; an empty stream is
treated as valid (a whitespace-only expression). -/
def pyCompileOk (toks : List LexToken) : Bool :=
  toks.isEmpty || pyOkAux (toks.length + 1) toks false []

/-- A raised host exception, as opposed to a returned failure value. -/
inductive PyExn where
  | syntaxError (msg : String)
deriving DecidableEq, Repr

/-- Modelled from the spec (section 4.4) and the repository's tests
(`tests/test_expression.py`, `test_test_eval`): tokenize a lexed stream.
Bad tokens and identifier-resolution errors are returned as one aggregate
failure value, but a stream that fails the host-grammar compile check
raises a `SyntaxError` (the outer `Except` layer). -/
def engineTokenize (o : Owner) (t : SymbolTable) (caseFold : Bool)
    (toks : List LexToken) :
    Except PyExn (Except (List String) (List ObjToken × List (String × String))) :=
  let bads := badTokens toks
  if bads.isEmpty then
    let r := tokenizeAux o t caseFold toks
    if r.2.isEmpty then
      if pyCompileOk toks then .ok (.ok (r.1, relatedObjects r.1))
      else .error (.syntaxError "unexpected EOF while parsing")
    else .ok (.error r.2)
  else
    .ok (.error (bads.map badTokenMsg))

/-- Numeric value of a list of decimal digits. -/
def digitsVal (cs : List Char) : Nat :=
  cs.foldl (fun a c => 10 * a + (c.toNat - 48)) 0

/-- Parse a numeric literal (as produced by the lexer) into a rational:
integer part, optional fraction, optional signed exponent.  Returns `none`
for a string that is not a float literal (for example `3j`). -/
def parseDecimal (s : String) : Option ℚ :=
  let cs := s.toList
  let ip := cs.takeWhile Char.isDigit
  let r1 := cs.dropWhile Char.isDigit
  let (fp, r2) :=
    match r1 with
    | '.' :: rest => (rest.takeWhile Char.isDigit, rest.dropWhile Char.isDigit)
    | _ => ([], r1)
  let hasDot := match r1 with | '.' :: _ => true | _ => false
  if ip.isEmpty && fp.isEmpty then none
  else
    let mant : ℚ := (digitsVal ip : ℚ) + (digitsVal fp : ℚ) / ((10 : ℚ) ^ fp.length)
    match r2 with
    | [] => if hasDot || !ip.isEmpty then some mant else none
    | e :: rest =>
      if e == 'e' || e == 'E' then
        let (sgn, ds) :=
          match rest with
          | '+' :: rest2 => ((1 : ℤ), rest2)
          | '-' :: rest2 => ((-1 : ℤ), rest2)
          | _ => ((1 : ℤ), rest)
        if !ds.isEmpty && ds.all Char.isDigit then
          some (mant * (10 : ℚ) ^ (sgn * (digitsVal ds : ℤ)))
        else none
      else none

/-- A numeric-literal token string denotes a float. -/
def isFloatLit (s : String) : Bool :=
  (parseDecimal s).isSome

/-- An annotated operator token with the given symbol. -/
def ObjToken.isOp (tok : ObjToken) (s : String) : Bool :=
  tok.code == .op && tok.tokenString == s

mutual

/-- Modelled from the spec (section 4.6): evaluate an additive expression
over the annotated stream, given implementations for the whitelisted
functions and current values for the resolved references.  The fuel bounds
recursion depth; `none` is an evaluation failure. -/
def evalE (fns : String → List ℚ → Option ℚ) (vals : String → String → Option ℚ) :
    Nat → List ObjToken → Option (ℚ × List ObjToken)
  | 0, _ => none
  | fuel + 1, ts => do
    let (v, ts1) ← evalT fns vals fuel ts
    evalETail fns vals fuel v ts1

/-- Chain of `+`/`-` operations after a first term. -/
def evalETail (fns : String → List ℚ → Option ℚ) (vals : String → String → Option ℚ) :
    Nat → ℚ → List ObjToken → Option (ℚ × List ObjToken)
  | 0, _, _ => none
  | _ + 1, a, [] => some (a, [])
  | fuel + 1, a, tok :: ts =>
    if tok.isOp "+" then do
      let (v, ts1) ← evalT fns vals fuel ts
      evalETail fns vals fuel (a + v) ts1
    else if tok.isOp "-" then do
      let (v, ts1) ← evalT fns vals fuel ts
      evalETail fns vals fuel (a - v) ts1
    else some (a, tok :: ts)

/-- Evaluate a multiplicative term. -/
def evalT (fns : String → List ℚ → Option ℚ) (vals : String → String → Option ℚ) :
    Nat → List ObjToken → Option (ℚ × List ObjToken)
  | 0, _ => none
  | fuel + 1, ts => do
    let (v, ts1) ← evalA fns vals fuel ts
    evalTTail fns vals fuel v ts1

/-- Chain of `*`/`/` operations after a first factor. -/
def evalTTail (fns : String → List ℚ → Option ℚ) (vals : String → String → Option ℚ) :
    Nat → ℚ → List ObjToken → Option (ℚ × List ObjToken)
  | 0, _, _ => none
  | _ + 1, a, [] => some (a, [])
  | fuel + 1, a, tok :: ts =>
    if tok.isOp "*" then do
      let (v, ts1) ← evalA fns vals fuel ts
      evalTTail fns vals fuel (a * v) ts1
    else if tok.isOp "/" then do
      let (v, ts1) ← evalA fns vals fuel ts
      evalTTail fns vals fuel (a / v) ts1
    else some (a, tok :: ts)

/-- Evaluate an atom: a literal, a resolved reference, a whitelisted
function call, a parenthesised expression or a unary minus. -/
def evalA (fns : String → List ℚ → Option ℚ) (vals : String → String → Option ℚ) :
    Nat → List ObjToken → Option (ℚ × List ObjToken)
  | 0, _ => none
  | _ + 1, [] => none
  | fuel + 1, tok :: ts =>
    match tok.code with
    | .number => (parseDecimal tok.tokenString).map (fun v => (v, ts))
    | .objId =>
      match tok.modelType, tok.modelId with
      | some c, some i => (vals c i).map (fun v => (v, ts))
      | _, _ => none
    | .mathFuncId =>
      match ts with
      | u :: ts1 =>
        if u.isOp "(" then do
          let (args, ts2) ← evalArgs fns vals fuel ts1
          match ts2 with
          | v :: ts3 =>
            if v.isOp ")" then do
              let r ← fns tok.tokenString args
              some (r, ts3)
            else none
          | [] => none
        else none
      | [] => none
    | .op =>
      if tok.tokenString == "(" then do
        let (v, ts1) ← evalE fns vals fuel ts
        match ts1 with
        | u :: ts2 => if u.isOp ")" then some (v, ts2) else none
        | [] => none
      else if tok.tokenString == "-" then do
        let (v, ts1) ← evalA fns vals fuel ts
        some (-v, ts1)
      else none
    | .other => none

/-- Evaluate a comma-separated list of function arguments. -/
def evalArgs (fns : String → List ℚ → Option ℚ) (vals : String → String → Option ℚ) :
    Nat → List ObjToken → Option (List ℚ × List ObjToken)
  | 0, _ => none
  | fuel + 1, ts => do
    let (v, ts1) ← evalE fns vals fuel ts
    match ts1 with
    | u :: ts2 =>
      if u.isOp "," then do
        let (args, ts3) ← evalArgs fns vals fuel ts2
        some (v :: args, ts3)
      else some ([v], ts1)
    | [] => some ([v], [])

end

/-- Evaluate a whole annotated stream to a value. -/
def evalStream (fns : String → List ℚ → Option ℚ) (vals : String → String → Option ℚ)
    (ts : List ObjToken) : Option ℚ :=
  match evalE fns vals (ts.length + 1) ts with
  | some (v, []) => some v
  | _ => none

/-- Modelled from the spec (section 3): a parsed expression owns the
stripped original string, the annotated token stream (absent after a failed
tokenize), the per-category resolved objects, the collected errors, and the
compiled form (present only after successful static validation). -/
structure ParsedState where
  expression : String
  objTokens : Option (List ObjToken) := none
  relatedObjs : List (String × String) := []
  errors : List String := []
  compiled : Option (List ObjToken) := none
deriving DecidableEq, Repr

/-- Modelled from the repository's tests: constructing a parsed expression
lexes the string and fails (an error caught by the deserializers) when the
stream has unbalanced brackets. -/
def mkParsed (s : String) : Except String (List LexToken) :=
  let toks := lex s
  if bracketsBalanced toks then .ok toks
  else .error ("parsing " ++ strip s ++ " creates a Python syntax error")

/-- Construct and tokenize a parsed expression from a string.  The outer
`Except` is the construction error (a caught failure value); the next layer
is a raised host exception from the grammar check. -/
def parseString (o : Owner) (t : SymbolTable) (caseFold : Bool) (s : String) :
    Except String (Except PyExn ParsedState) :=
  match mkParsed s with
  | .error e => .error e
  | .ok toks =>
    match engineTokenize o t caseFold toks with
    | .error exn => .ok (.error exn)
    | .ok (.ok (ts, ros)) =>
      .ok (.ok { expression := strip s, objTokens := some ts, relatedObjs := ros,
                 errors := [], compiled := some ts })
    | .ok (.error es) =>
      .ok (.ok { expression := strip s, objTokens := none, errors := es })

/-- The distinct evaluation-time error for a stream that was never
successfully parsed and compiled. -/
def notCompiledMsg (e : String) : String :=
  "Cannot evaluate " ++ e ++ ", as it not been successfully compiled"

/-- Modelled from the spec (section 4.6): evaluation fails fast with the
distinct not-successfully-parsed error when static validation did not
produce a compiled stream; otherwise the compiled stream is executed. -/
def testEval (p : ParsedState) (fns : String → List ℚ → Option ℚ)
    (vals : String → String → Option ℚ) : Except String ℚ :=
  match p.compiled with
  | none => .error (notCompiledMsg p.expression)
  | some ts =>
    match evalStream fns vals ts with
    | some v => .ok v
    | none => .error ("eval of " ++ p.expression ++ " raises an evaluation error")

/-- Modelled from the spec (section 4.5): the states of the linear-form
validator's finite-state walk. -/
inductive LinState where
  | start
  | expectTerm
  | seenNumber
  | needId
  | afterTerm
deriving DecidableEq, Repr

/-- Modelled from the spec (section 4.5): one transition of the
linear-form walk.  A term is a resolved reference optionally preceded by a
float literal and `*`; terms are chained only by `+`/`-`; any math
function name, non-float literal or other token has no transition. -/
def linStep (st : LinState) (tok : ObjToken) : Option LinState :=
  match st with
  | .start | .expectTerm =>
    match tok.code with
    | .number => if isFloatLit tok.tokenString then some .seenNumber else none
    | .objId => some .afterTerm
    | _ => none
  | .seenNumber => if tok.isOp "*" then some .needId else none
  | .needId => if tok.code == .objId then some .afterTerm else none
  | .afterTerm =>
    if tok.isOp "+" || tok.isOp "-" then some .expectTerm else none

/-- Run the linear-form walk from a state over a stream. -/
def linRun (st : LinState) : List ObjToken → Option LinState
  | [] => some st
  | tok :: ts =>
    match linStep st tok with
    | some st2 => linRun st2 ts
    | none => none

/-- Modelled from the spec (section 4.5): the linear-form validator
accepts a stream iff the walk from the start state consumes the whole
stream and ends in an accepting state; the empty stream is vacuously
linear. -/
def linValid (ts : List ObjToken) : Bool :=
  match linRun .start ts with
  | some .start => true
  | some .afterTerm => true
  | _ => false

end WcExpr

namespace WcCore

/-!
Shallow embedding of the expression-bearing model classes of
`wc_lang/core.py`.  The Python `objects` dictionary of model instances is
embedded as explicit registry records threaded through the deserializers;
object identity is embedded as a numeric tag drawn from a counter in the
registry.  `re.findall` over the fixed identifier patterns used in
`core.py` is embedded as dedicated left-to-right scanners with the same
non-overlapping match semantics.
-/

/-- Embeds `re.findall` of the pattern
`(^|[^a-z0-9_])([a-z_][a-z0-9_]*)([^a-z0-9_]|$)` (case-insensitive) used
by `ObjectiveFunction.deserialize`, and the parameter pattern of
`RateLawEquation.deserialize` whose boundary classes also exclude square
brackets.  `isB` is the boundary character class; a match consumes its
boundary characters, as `re.findall` does, so an identifier separated from
a previous match by a single consumed boundary character is not found.
The fuel always suffices for the initial call. -/
def scanSlugAux (isB : Char → Bool) : Nat → List Char → Bool → List String
  | 0, _, _ => []
  | _ + 1, [], _ => []
  | fuel + 1, c :: rest, atStart =>
    if atStart && isSlugStart c then
      let slug := String.mk (c :: rest.takeWhile isIdChar)
      match rest.dropWhile isIdChar with
      | [] => [slug]
      | d :: rem2 =>
        if isB d then slug :: scanSlugAux isB fuel rem2 false
        else scanSlugAux isB fuel rest false
    else if isB c then
      match rest with
      | [] => []
      | d :: rest2 =>
        if isSlugStart d then
          let slug := String.mk (d :: rest2.takeWhile isIdChar)
          match rest2.dropWhile isIdChar with
          | [] => [slug]
          | e :: rem2 =>
            if isB e then slug :: scanSlugAux isB fuel rem2 false
            else scanSlugAux isB fuel rest false
        else scanSlugAux isB fuel rest false
    else scanSlugAux isB fuel rest false

/-- The identifiers found in a string by `ObjectiveFunction.deserialize`'s
pattern (`core.py:1160-1163`). -/
def findIdentifiers (v : String) : List String :=
  scanSlugAux (fun c => !isIdChar c) v.length v.toList true

/-- The parameter identifiers found by `RateLawEquation.deserialize`'s
pattern (`core.py:2316`, boundary class `[^a-z0-9_\[\]]`). -/
def findParameterIds (v : String) : List String :=
  scanSlugAux (fun c => !isIdChar c && c != '[' && c != ']') v.length v.toList true

/-- Parse one `speciestype[compartment]` unit (both slugs `[a-z_][a-z0-9_]*`)
from the head of the character stream. -/
def takeModUnit (cs : List Char) : Option (String × List Char) :=
  match cs with
  | c :: rest =>
    if isSlugStart c then
      let st := c :: rest.takeWhile isIdChar
      match rest.dropWhile isIdChar with
      | '[' :: rest2 =>
        match rest2 with
        | d :: rest3 =>
          if isSlugStart d then
            let cm := d :: rest3.takeWhile isIdChar
            match rest3.dropWhile isIdChar with
            | ']' :: rest4 => some (String.mk (st ++ '[' :: (cm ++ [']'])), rest4)
            | _ => none
          else none
        | [] => none
      | _ => none
    else none
  | [] => none

/-- Embeds `re.findall` of the modifier pattern
`(^|[^a-z0-9_])(st\[cm\])([^a-z0-9_]|$)` of `RateLawEquation.deserialize`
(`core.py:2314-2315`), with the same consumed-boundary semantics as
`scanSlugAux`. -/
def scanModAux : Nat → List Char → Bool → List String
  | 0, _, _ => []
  | _ + 1, [], _ => []
  | fuel + 1, c :: rest, atStart =>
    if atStart then
      match takeModUnit (c :: rest) with
      | some (u, rem) =>
        match rem with
        | [] => [u]
        | e :: rem2 =>
          if !isIdChar e then u :: scanModAux fuel rem2 false
          else scanModAux fuel rest false
      | none =>
        if !isIdChar c then
          match takeModUnit rest with
          | some (u, rem) =>
            match rem with
            | [] => [u]
            | e :: rem2 =>
              if !isIdChar e then u :: scanModAux fuel rem2 false
              else scanModAux fuel rest false
          | none => scanModAux fuel rest false
        else scanModAux fuel rest false
    else
      if !isIdChar c then
        match takeModUnit rest with
        | some (u, rem) =>
          match rem with
          | [] => [u]
          | e :: rem2 =>
            if !isIdChar e then u :: scanModAux fuel rem2 false
            else scanModAux fuel rest false
        | none => scanModAux fuel rest false
      else scanModAux fuel rest false

/-- The species references found by `RateLawEquation.deserialize`'s
modifier pattern. -/
def findModifierIds (v : String) : List String :=
  scanModAux v.length v.toList true

/-- Embeds `ObjectiveFunction` (`core.py:1098`): the fields set by `deserialize`,
plus an identity tag. -/
structure ObjectiveFunctionObj where
  expression : String
  reactions : List String
  biomassReactions : List String
  tag : Nat
deriving DecidableEq, Repr

/-- The slice of the `objects` registry read and written by
`ObjectiveFunction.deserialize`: the `Reaction` and `BiomassReaction` id
keys, the interning store keyed by serialized value, and the identity
counter. -/
structure OFObjects where
  reactionIds : List String
  biomassReactionIds : List String
  store : List (String × ObjectiveFunctionObj)
  nextTag : Nat
deriving DecidableEq, Repr

/-- Embeds `ObjectiveFunction.Meta.valid_functions` (`core.py:1131`):
`(exp, pow, log, log10)`. -/
def validFunctionNames : List String :=
  ["exp", "pow", "log", "log10"]

/-- Error: reaction ids ambiguous with a valid function (`core.py:1178`). -/
def ambigFnReactionMsg (ids : List String) (v : String) : String :=
  "reaction id(s) " ++ String.intercalate ", " ids ++
    " ambiguous between a Reaction and a valid function in " ++ v

/-- Error: biomass reaction ids ambiguous with a valid function
(`core.py:1182`). -/
def ambigFnBiomassMsg (ids : List String) (v : String) : String :=
  "reaction id(s) " ++ String.intercalate ", " ids ++
    " ambiguous between a BiomassReaction and a valid function in " ++ v

/-- Error: id is both a Reaction and a BiomassReaction (`core.py:1196`). -/
def ambigReactionBiomassMsg (id v : String) : String :=
  "id " ++ id ++ " ambiguous between a Reaction and a BiomassReaction in " ++ v

/-- Error: id is neither a Reaction nor a BiomassReaction
(`core.py:1201`). -/
def notAReactionMsg (id v : String) : String :=
  "id " ++ id ++ " not a Reaction or a BiomassReaction identifier in " ++ v

/-- The per-identifier loop of `ObjectiveFunction.deserialize`
(`core.py:1185-1211`): walk the identifiers, collecting every error and
the referenced reactions and biomass reactions without duplicates, in
first-occurrence order. -/
def ofProcessIds (rIds bIds : List String) (v : String) :
    List String → List String → List String → List String →
    List String × List String × List String
  | [], errs, rs, bs => (errs, rs, bs)
  | id :: ids, errs, rs, bs =>
    if id ∈ validFunctionNames then ofProcessIds rIds bIds v ids errs rs bs
    else
      let isR := id ∈ rIds
      let isB := id ∈ bIds
      let errs2 := errs ++ (if isR ∧ isB then [ambigReactionBiomassMsg id v] else [])
                        ++ (if ¬isR ∧ ¬isB then [notAReactionMsg id v] else [])
      let rs2 := if isR ∧ id ∉ rs then rs ++ [id] else rs
      let bs2 := if isB ∧ id ∉ bs then bs ++ [id] else bs
      ofProcessIds rIds bIds v ids errs2 rs2 bs2

/-- The reaction-id/valid-function ambiguity checks of
`ObjectiveFunction.deserialize` (`core.py:1175-1183`). -/
def ofHeadErrors (rIds bIds : List String) (v : String) : List String :=
  let identifiers := findIdentifiers v
  let invalidR := validFunctionNames.filter (fun f => f ∈ rIds ∧ f ∈ identifiers)
  let invalidB := validFunctionNames.filter (fun f => f ∈ bIds ∧ f ∈ identifiers)
  (if invalidR.isEmpty then [] else [ambigFnReactionMsg invalidR v])
    ++ (if invalidB.isEmpty then [] else [ambigFnBiomassMsg invalidB v])

/-- All error messages collected by `ObjectiveFunction.deserialize` for a
string value, against the reaction and biomass-reaction ids of the
registry. -/
def ofErrors (rIds bIds : List String) (v : String) : List String :=
  ofHeadErrors rIds bIds v
    ++ (ofProcessIds rIds bIds v (findIdentifiers v) [] [] []).1

/-- The referenced reaction and biomass-reaction id lists collected by
`ObjectiveFunction.deserialize`. -/
def ofCollected (rIds bIds : List String) (v : String) :
    List String × List String :=
  (ofProcessIds rIds bIds v (findIdentifiers v) [] [] []).2

namespace ObjectiveFunction

/-- Embeds `ObjectiveFunction.serialize` (`core.py:1134-1140`): return the
`expression` attribute. -/
def serialize (o : ObjectiveFunctionObj) : String :=
  o.expression

/-- Embeds `ObjectiveFunction.deserialize` (`core.py:1142-1225`): a `None` input
short-circuits to `(None, None)`; otherwise identifiers are extracted by
the slug pattern, allocated between reactions and biomass reactions with
all errors collected, and on success the instance interned in the registry
keyed by the serialized value is returned (creating it only when absent). -/
def deserialize (value : Option String) (objs : OFObjects) :
    (Option ObjectiveFunctionObj × Option (List String)) × OFObjects :=
  match value with
  | none => ((none, none), objs)
  | some v =>
    let errors := ofErrors objs.reactionIds objs.biomassReactionIds v
    if errors.isEmpty then
      match objs.store.find? (fun e => e.1 == v) with
      | some e => ((some e.2, none), objs)
      | none =>
        let rb := ofCollected objs.reactionIds objs.biomassReactionIds v
        let obj : ObjectiveFunctionObj := ⟨v, rb.1, rb.2, objs.nextTag⟩
        ((some obj, none),
         { objs with store := (v, obj) :: objs.store, nextTag := objs.nextTag + 1 })
    else ((none, some errors), objs)

end ObjectiveFunction

end WcCore

namespace WcCore

/-- Embeds `RateLawEquation` (`core.py:2260`): the fields set by `deserialize`,
plus an identity tag.  Modifier species and parameters are referenced by
their identity tags. -/
structure RateLawEquationObj where
  expression : String
  modifiers : List Nat
  parameters : List Nat
  tag : Nat
deriving DecidableEq, Repr

/-- The slice of the `objects` registry used by
`RateLawEquation.deserialize`: `SpeciesType` and `Compartment` id keys,
the `Species` and `Parameter` instances keyed by id, the interning store
for rate law equations, and the identity counter. -/
structure RLEnv where
  speciesTypeIds : List String
  compartmentIds : List String
  speciesStore : List (String × Nat)
  parameterStore : List (String × Nat)
  rleStore : List (String × RateLawEquationObj)
  nextTag : Nat
deriving DecidableEq, Repr

/-- The full-string species pattern of `Species.deserialize`
(`core.py:1544`): `^([a-z][a-z0-9_]*)\[([a-z][a-z0-9_]*)\]$`,
case-insensitive (note: both parts start with a letter, not an
underscore). -/
def parseSpeciesValue (v : String) : Option (String × String) :=
  match v.toList with
  | c :: rest =>
    if c.isAlpha then
      let st := c :: rest.takeWhile isIdChar
      match rest.dropWhile isIdChar with
      | '[' :: rest2 =>
        match rest2 with
        | d :: rest3 =>
          if d.isAlpha then
            let cm := d :: rest3.takeWhile isIdChar
            match rest3.dropWhile isIdChar with
            | [']'] => some (String.mk st, String.mk cm)
            | _ => none
          else none
        | [] => none
      | _ => none
    else none
  | [] => none

namespace Species

/-- Embeds `Species.deserialize` (`core.py:1529-1571`): return the interned
species when the value is already a key; otherwise parse the value as
`speciestype[compartment]`, report undefined species types or
compartments, and intern a new species keyed by its canonical id. -/
def deserialize (value : String) (env : RLEnv) :
    (Option Nat × Option (List String)) × RLEnv :=
  match env.speciesStore.find? (fun e => e.1 == value) with
  | some e => ((some e.2, none), env)
  | none =>
    match parseSpeciesValue value with
    | some (st, cm) =>
      let errs := (if st ∈ env.speciesTypeIds then []
                   else ["Species type " ++ st ++ " is not defined"])
               ++ (if cm ∈ env.compartmentIds then []
                   else ["Compartment " ++ cm ++ " is not defined"])
      if errs.isEmpty then
        let sv := st ++ "[" ++ cm ++ "]"
        match env.speciesStore.find? (fun e => e.1 == sv) with
        | some e => ((some e.2, none), env)
        | none =>
          ((some env.nextTag, none),
           { env with speciesStore := (sv, env.nextTag) :: env.speciesStore,
                      nextTag := env.nextTag + 1 })
      else ((none, some errs), env)
    | none => ((none, some ["Invalid species"]), env)

end Species

/-- Embeds `obj_model.Model.deserialize` as used for `Parameter`
(`core.py:2329`), modelled from its use: look the id up among the
`Parameter` instances of the registry. -/
def parameterDeserialize (value : String) (env : RLEnv) :
    Option Nat × Option (List String) :=
  match env.parameterStore.find? (fun e => e.1 == value) with
  | some e => (some e.2, none)
  | none => (none, some ["Unable to find Parameter with id " ++ value])

/-- Embeds the `RateLawEquation.Meta.valid_functions` names plus `k_cat` and `k_m`
(`core.py:2288`, `core.py:2318`). -/
def reservedNames : List String :=
  ["ceil", "floor", "exp", "pow", "log", "log10", "min", "max", "k_cat", "k_m"]

/-- The modifier loop of `RateLawEquation.deserialize`
(`core.py:2321-2326`): deserialize each species match in order, collecting
resolved species and error messages, threading the registry (species may
be created). -/
def collectModifiers : RLEnv → List String → List Nat × List String × RLEnv
  | env, [] => ([], [], env)
  | env, m :: ms =>
    match Species.deserialize m env with
    | ((some tag, _), env2) =>
      let r := collectModifiers env2 ms
      (tag :: r.1, r.2.1, r.2.2)
    | ((none, e), env2) =>
      let r := collectModifiers env2 ms
      (r.1, e.getD [] ++ r.2.1, r.2.2)

/-- The parameter loop of `RateLawEquation.deserialize`
(`core.py:2327-2333`): look up each non-reserved parameter match in order,
collecting resolved parameters and error messages. -/
def collectParameters (env : RLEnv) : List String → List Nat × List String
  | [] => ([], [])
  | p :: ps =>
    if p ∈ reservedNames then collectParameters env ps
    else
      match parameterDeserialize p env with
      | (some tag, _) =>
        let r := collectParameters env ps
        (tag :: r.1, r.2)
      | (none, e) =>
        let r := collectParameters env ps
        (r.1, e.getD [] ++ r.2)

namespace RateLawEquation

/-- Embeds `RateLawEquation.serialize` (`core.py:2291-2297`): return the
`expression` attribute. -/
def serialize (o : RateLawEquationObj) : String :=
  o.expression

/-- Embeds `RateLawEquation.deserialize` (`core.py:2299-2350`): extract species
and parameter references with the two patterns, resolve them collecting
all errors, and on success intern an equation whose `modifiers` and
`parameters` are the deterministically deduplicated resolved lists. -/
def deserialize (v : String) (env : RLEnv) :
    (Option RateLawEquationObj × Option (List String)) × RLEnv :=
  let mstep := collectModifiers env (findModifierIds v)
  let env2 := mstep.2.2
  let pstep := collectParameters env2 (findParameterIds v)
  let errors := mstep.2.1 ++ pstep.2
  if errors.isEmpty then
    match env2.rleStore.find? (fun e => e.1 == v) with
    | some e => ((some e.2, none), env2)
    | none =>
      let obj : RateLawEquationObj :=
        ⟨v, detDedupe mstep.1, detDedupe pstep.1, env2.nextTag⟩
      ((some obj, none),
       { env2 with rleStore := (v, obj) :: env2.rleStore, nextTag := env2.nextTag + 1 })
  else ((none, some errors), env2)

end RateLawEquation

/-- Embeds `FunctionExpression` (`core.py:1705`): the fields set by
`deserialize`, plus an identity tag.  The referenced observables,
parameters and functions are kept by id. -/
structure FunctionExpressionObj where
  expression : String
  observables : List String
  parameters : List String
  functions : List String
  tag : Nat
deriving DecidableEq, Repr

/-- The slice of the `objects` registry written by
`FunctionExpression.deserialize`: the interning store keyed by the
expression string and the identity counter. -/
structure FEObjects where
  store : List (String × FunctionExpressionObj)
  nextTag : Nat
deriving DecidableEq, Repr

namespace FunctionExpression

/-- Embeds `FunctionExpression.serialize` (`core.py:1728-1734`): return the
`expression` attribute. -/
def serialize (o : FunctionExpressionObj) : String :=
  o.expression

/-- Embeds `FunctionExpression.deserialize` (`core.py:1735-1779`): construct and
tokenize the expression with the engine (a construction error is caught
and returned as a failure value; a host-grammar `SyntaxError` raised by
tokenization propagates), collect the used objects per category, and
reuse an identical interned instance when one exists for the expression
string.  The owner contract and symbol table stand for the engine inputs
derived from `cls` and `objects`. -/
def deserialize (o : WcExpr.Owner) (t : WcExpr.SymbolTable) (expression : String)
    (objs : FEObjects) :
    Except WcExpr.PyExn
      ((Option FunctionExpressionObj × Option (List String)) × FEObjects) :=
  match WcExpr.parseString o t false expression with
  | .error e => .ok ((none, some [e]), objs)
  | .ok (.error exn) => .error exn
  | .ok (.ok p) =>
    match p.objTokens with
    | none => .ok ((none, some p.errors), objs)
    | some _ =>
      let ros := p.relatedObjs
      let observables := (ros.filter (fun r => r.1 == "Observable")).map (fun r => r.2)
      let parameters := (ros.filter (fun r => r.1 == "Parameter")).map (fun r => r.2)
      let functions := (ros.filter (fun r => r.1 == "Function")).map (fun r => r.2)
      match objs.store.find? (fun e => e.1 == expression) with
      | some e => .ok ((some e.2, none), objs)
      | none =>
        let obj : FunctionExpressionObj :=
          ⟨expression, observables, parameters, functions, objs.nextTag⟩
        .ok ((some obj, none),
             { objs with store := (expression, obj) :: objs.store,
                         nextTag := objs.nextTag + 1 })

end FunctionExpression

end WcCore

/-!  Concrete example inputs used by the claim theorems and witnesses. -/

/-- A symbol table in which the categories `Function` and `Parameter` both
contain the id `Observable` (the disambiguation-precedence example of the
spec). -/
def exTableFP : WcExpr.SymbolTable :=
  [("Function", ["Observable"]), ("Parameter", ["Observable"])]

/-- An owner that may reference `Function` and `Parameter` and whitelists
the continuous functions. -/
def exOwnerFP : WcExpr.Owner :=
  ⟨["Function", "Parameter"], some ["exp", "pow", "log", "log10"]⟩

/-- A symbol table with one parameter `param_id` (the case-folding example
of the spec). -/
def exTableP : WcExpr.SymbolTable :=
  [("Parameter", ["param_id"])]

/-- An owner that may reference `Parameter`. -/
def exOwnerP : WcExpr.Owner :=
  ⟨["Parameter"], some ["log"]⟩

/-- The annotated token stream of
`id0 - 3*id1 - 3.5*id1 + 3.14e2*id3` with all four identifiers
resolved. -/
def linStreamEx : List WcExpr.ObjToken :=
  [⟨.objId, "id0", none, none⟩, ⟨.op, "-", none, none⟩,
   ⟨.number, "3", none, none⟩, ⟨.op, "*", none, none⟩,
   ⟨.objId, "id1", none, none⟩, ⟨.op, "-", none, none⟩,
   ⟨.number, "3.5", none, none⟩, ⟨.op, "*", none, none⟩,
   ⟨.objId, "id1", none, none⟩, ⟨.op, "+", none, none⟩,
   ⟨.number, "3.14e2", none, none⟩, ⟨.op, "*", none, none⟩,
   ⟨.objId, "id3", none, none⟩]

/-- The parsed state of `foo(6)` against `exOwnerFP`/`exTableFP`: the
function name is not whitelisted, so static validation fails and no
compiled stream exists. -/
def exFailedState : WcExpr.ParsedState :=
  { expression := "foo(6)", objTokens := none, relatedObjs := [],
    errors := [WcExpr.notAFunctionMsg "foo"], compiled := none }

/-- An `ObjectiveFunction` registry with one reaction id `rxn_1` and an
empty interning store. -/
def exOFObjects : WcCore.OFObjects :=
  ⟨["rxn_1"], [], [], 0⟩

/-- The objective function created by deserializing `rxn_1` against
`exOFObjects`. -/
def exOFObj : WcCore.ObjectiveFunctionObj :=
  ⟨"rxn_1", ["rxn_1"], [], 0⟩

/-- The registry `exOFObjects` after `rxn_1` has been deserialized and interned. -/
def exOFObjects2 : WcCore.OFObjects :=
  ⟨["rxn_1"], [], [("rxn_1", exOFObj)], 1⟩

/-- An empty `ObjectiveFunction` registry. -/
def exOFEmpty : WcCore.OFObjects :=
  ⟨[], [], [], 0⟩

/-- A rate-law registry with species type `s1`, compartment `c` and
parameter `p1`. -/
def exRLEnv : WcCore.RLEnv :=
  ⟨["s1"], ["c"], [], [("p1", 7)], [], 100⟩

/-- The rate law equation created by deserializing
`s1[c] + p1 + s1[c]` against `exRLEnv`: the twice-referenced species is
deduplicated. -/
def exRLEObj : WcCore.RateLawEquationObj :=
  ⟨"s1[c] + p1 + s1[c]", [100], [7], 101⟩

/-- The registry `exRLEnv` after `s1[c] + p1 + s1[c]` has been deserialized. -/
def exRLEnv2 : WcCore.RLEnv :=
  ⟨["s1"], ["c"], [("s1[c]", 100)], [("p1", 7)],
   [("s1[c] + p1 + s1[c]", exRLEObj)], 102⟩

/-- A function-expression registry with an empty store. -/
def exFEEmpty : WcCore.FEObjects :=
  ⟨[], 0⟩

/-- The function expression created by deserializing `param_id` against
`exOwnerP`/`exTableP`. -/
def exFEObj : WcCore.FunctionExpressionObj :=
  ⟨"param_id", [], ["param_id"], [], 0⟩

/-- The registry `exFEEmpty` after `param_id` has been deserialized. -/
def exFEObjects2 : WcCore.FEObjects :=
  ⟨[("param_id", exFEObj)], 1⟩
section DedupeLemmas

variable {α : Type} [DecidableEq α]

lemma mem_detDedupeAux (x : α) :
    ∀ (l seen : List α), x ∈ detDedupeAux l seen ↔ x ∈ l ∧ x ∉ seen
  | [], seen => by simp [detDedupeAux]
  | y :: ys, seen => by
    by_cases hy : y ∈ seen
    · rw [detDedupeAux, if_pos hy, mem_detDedupeAux x ys seen]
      constructor
      · exact fun h => ⟨List.mem_cons_of_mem _ h.1, h.2⟩
      · rintro ⟨h1, h2⟩
        rcases List.mem_cons.mp h1 with rfl | h1
        · exact absurd hy h2
        · exact ⟨h1, h2⟩
    · rw [detDedupeAux, if_neg hy]
      constructor
      · intro h
        rcases List.mem_cons.mp h with rfl | h
        · exact ⟨List.mem_cons_self _ _, hy⟩
        · rcases (mem_detDedupeAux x ys (y :: seen)).mp h with ⟨h1, h2⟩
          exact ⟨List.mem_cons_of_mem _ h1, fun hs => h2 (List.mem_cons_of_mem _ hs)⟩
      · rintro ⟨h1, h2⟩
        rcases List.mem_cons.mp h1 with rfl | h1
        · exact List.mem_cons_self _ _
        · by_cases hxy : x = y
          · subst hxy; exact List.mem_cons_self _ _
          · refine List.mem_cons_of_mem _ ((mem_detDedupeAux x ys (y :: seen)).mpr ⟨h1, ?_⟩)
            intro hmem
            rcases List.mem_cons.mp hmem with h | h
            · exact hxy h
            · exact h2 h

lemma detDedupeAux_nodup : ∀ (l seen : List α), (detDedupeAux l seen).Nodup
  | [], seen => by simp [detDedupeAux]
  | y :: ys, seen => by
    by_cases hy : y ∈ seen
    · rw [detDedupeAux, if_pos hy]; exact detDedupeAux_nodup ys seen
    · rw [detDedupeAux, if_neg hy]
      refine List.nodup_cons.mpr ⟨?_, detDedupeAux_nodup ys (y :: seen)⟩
      intro hmem
      exact ((mem_detDedupeAux y ys (y :: seen)).mp hmem).2 (List.mem_cons_self _ _)

lemma detDedupeAux_pairwise : ∀ (l seen : List α),
    (detDedupeAux l seen).Pairwise (fun a b => l.indexOf a < l.indexOf b)
  | [], seen => by simp [detDedupeAux]
  | y :: ys, seen => by
    by_cases hy : y ∈ seen
    · rw [detDedupeAux, if_pos hy]
      refine List.Pairwise.imp_of_mem ?_ (detDedupeAux_pairwise ys seen)
      intro a b ha hb hab
      have hay : y ≠ a := fun h => ((mem_detDedupeAux a ys seen).mp ha).2 (h ▸ hy)
      have hby : y ≠ b := fun h => ((mem_detDedupeAux b ys seen).mp hb).2 (h ▸ hy)
      rw [List.indexOf_cons_ne _ hay, List.indexOf_cons_ne _ hby]
      omega
    · rw [detDedupeAux, if_neg hy]
      refine List.pairwise_cons.mpr ⟨?_, ?_⟩
      · intro b hb
        have hby : y ≠ b := fun h =>
          ((mem_detDedupeAux b ys (y :: seen)).mp hb).2 (h ▸ List.mem_cons_self _ _)
        rw [List.indexOf_cons_self, List.indexOf_cons_ne _ hby]
        omega
      · refine List.Pairwise.imp_of_mem ?_ (detDedupeAux_pairwise ys (y :: seen))
        intro a b ha hb hab
        have hay : y ≠ a := fun h =>
          ((mem_detDedupeAux a ys (y :: seen)).mp ha).2 (h ▸ List.mem_cons_self _ _)
        have hby : y ≠ b := fun h =>
          ((mem_detDedupeAux b ys (y :: seen)).mp hb).2 (h ▸ List.mem_cons_self _ _)
        rw [List.indexOf_cons_ne _ hay, List.indexOf_cons_ne _ hby]
        omega

lemma mem_detDedupe (x : α) (l : List α) : x ∈ detDedupe l ↔ x ∈ l := by
  rw [detDedupe, mem_detDedupeAux]
  simp

lemma detDedupe_nodup (l : List α) : (detDedupe l).Nodup :=
  detDedupeAux_nodup l []

lemma detDedupe_pairwise (l : List α) :
    (detDedupe l).Pairwise (fun a b => l.indexOf a < l.indexOf b) :=
  detDedupeAux_pairwise l []

end DedupeLemmas

namespace WcExpr

lemma tokAux_skip (o : Owner) (t : SymbolTable) (cf : Bool) :
    ∀ (k : Nat) (l : List LexToken), tokAux o t cf l k = tokAux o t cf (l.drop k) 0
  | 0, l => by simp
  | k + 1, [] => by simp [tokAux]
  | k + 1, tok :: rest => by
    rw [List.drop_succ_cons, ← tokAux_skip o t cf k rest]
    simp only [tokAux]

lemma errs_nextSuffix (o : Owner) (t : SymbolTable) (cf : Bool) (s : List LexToken)
    (hs : s ≠ []) :
    ∀ e ∈ (tokenizeAux o t cf (nextSuffix o t cf s)).2, e ∈ (tokenizeAux o t cf s).2 := by
  intro e he
  match s with
  | [] => exact absurd rfl hs
  | .name x :: rest =>
    rcases hd : dispatch o t cf x (.name x :: rest) with m | es
    · have : tokenizeAux o t cf (.name x :: rest)
          = (m.tokens ++ (tokAux o t cf rest (m.numConsumed - 1)).1,
             (tokAux o t cf rest (m.numConsumed - 1)).2) := by
        simp only [tokenizeAux, tokAux, hd]
      rw [this]
      rw [nextSuffix, hd] at he
      rw [tokenizeAux, ← tokAux_skip] at he
      exact he
    · have : tokenizeAux o t cf (.name x :: rest)
          = ((tokAux o t cf rest 0).1, es ++ (tokAux o t cf rest 0).2) := by
        simp only [tokenizeAux, tokAux, hd]
      rw [this]
      rw [nextSuffix, hd] at he
      rw [tokenizeAux] at he
      exact List.mem_append_right _ he
  | .num a :: rest =>
    simp only [nextSuffix] at he
    rw [tokenizeAux] at he ⊢
    simp only [tokAux]
    exact he
  | .op a :: rest =>
    simp only [nextSuffix] at he
    rw [tokenizeAux] at he ⊢
    simp only [tokAux]
    exact he
  | .lparen :: rest =>
    simp only [nextSuffix] at he
    rw [tokenizeAux] at he ⊢
    simp only [tokAux]
    exact he
  | .rparen :: rest =>
    simp only [nextSuffix] at he
    rw [tokenizeAux] at he ⊢
    simp only [tokAux]
    exact he
  | .lbrack :: rest =>
    simp only [nextSuffix] at he
    rw [tokenizeAux] at he ⊢
    simp only [tokAux]
    exact he
  | .rbrack :: rest =>
    simp only [nextSuffix] at he
    rw [tokenizeAux] at he ⊢
    simp only [tokAux]
    exact he
  | .dot :: rest =>
    simp only [nextSuffix] at he
    rw [tokenizeAux] at he ⊢
    simp only [tokAux]
    exact he
  | .comma :: rest =>
    simp only [nextSuffix] at he
    rw [tokenizeAux] at he ⊢
    simp only [tokAux]
    exact he
  | .bad a :: rest =>
    simp only [nextSuffix] at he
    rw [tokenizeAux] at he ⊢
    simp only [tokAux]
    exact List.mem_cons_of_mem _ he

lemma scans_errs (o : Owner) (t : SymbolTable) (cf : Bool) {l s : List LexToken}
    (h : Scans o t cf l s) :
    ∀ e ∈ (tokenizeAux o t cf s).2, e ∈ (tokenizeAux o t cf l).2 := by
  induction h with
  | refl => exact fun e he => he
  | step hsc hne ih => exact fun e he => ih e (errs_nextSuffix o t cf _ hne e he)

end WcExpr

/-- Every objective function interned in the registry is stored under its
own expression string. -/
def OFStoreWF (objs : WcCore.OFObjects) : Prop :=
  ∀ p ∈ objs.store, p.2.expression = p.1

/-- Every function expression interned in the registry is stored under its
own expression string. -/
def FEStoreWF (objs : WcCore.FEObjects) : Prop :=
  ∀ p ∈ objs.store, p.2.expression = p.1

/-- Every rate law equation interned in the registry has deduplicated
modifier and parameter lists. -/
def RLEStoreWF (env : WcCore.RLEnv) : Prop :=
  ∀ p ∈ env.rleStore, p.2.modifiers.Nodup ∧ p.2.parameters.Nodup

/-- C1: for every owner and symbol table the identifier matcher tries its
three strategies strictly in the order disambiguated reference, bare
identifier, function-call identifier, and returns the result of the first
strategy that matches without attempting the later ones; in particular,
with categories `Function` and `Parameter` both containing the id
`Observable`, the expression `Function.Observable` resolves to the
`Function` member, not the `Parameter`. -/
theorem matcher_strategy_precedence :
    (∀ (o : WcExpr.Owner) (t : WcExpr.SymbolTable) (cf : Bool)
        (toks : List WcExpr.LexToken) (x : String) (m : WcExpr.LexMatch),
      WcExpr.disambigId o t cf toks = .found m →
      WcExpr.dispatch o t cf x toks = .found m)
    ∧ (∀ (o : WcExpr.Owner) (t : WcExpr.SymbolTable) (cf : Bool)
        (toks : List WcExpr.LexToken) (x : String) (m : WcExpr.LexMatch),
      WcExpr.disambigId o t cf toks = .noMatch →
      WcExpr.relatedObjId o t cf toks = .found m →
      WcExpr.dispatch o t cf x toks = .found m)
    ∧ (∀ (o : WcExpr.Owner) (t : WcExpr.SymbolTable) (cf : Bool)
        (toks : List WcExpr.LexToken) (x : String) (m : WcExpr.LexMatch),
      WcExpr.disambigId o t cf toks = .noMatch →
      WcExpr.relatedObjId o t cf toks = .noMatch →
      WcExpr.funcCallId o toks = .found m →
      WcExpr.dispatch o t cf x toks = .found m)
    ∧ WcExpr.tokenize exOwnerFP exTableFP false
        [.name "Function", .dot, .name "Observable"]
      = .ok ([⟨.objId, "Function.Observable", some "Function", some "Observable"⟩],
             [("Function", "Observable")]) := by
  refine ⟨?_, ?_, ?_, by decide⟩
  · intro o t cf toks x m h
    simp [WcExpr.dispatch, h]
  · intro o t cf toks x m h1 h2
    simp [WcExpr.dispatch, h1, h2]
  · intro o t cf toks x m h1 h2 h3
    simp [WcExpr.dispatch, h1, h2, h3]

/-- Witness for C1: the three precedence statements evaluated at concrete
inputs. -/
theorem matcher_strategy_precedence_witness :
    WcExpr.dispatch exOwnerFP exTableFP false "Function"
        [.name "Function", .dot, .name "Observable"]
      = .found ⟨3, [⟨.objId, "Function.Observable", some "Function", some "Observable"⟩]⟩
    ∧ WcExpr.dispatch exOwnerP exTableP false "param_id" [.name "param_id"]
      = .found ⟨1, [⟨.objId, "param_id", some "Parameter", some "param_id"⟩]⟩
    ∧ WcExpr.dispatch exOwnerP exTableP false "log" [.name "log", .lparen]
      = .found ⟨2, [⟨.mathFuncId, "log", none, none⟩, ⟨.op, "(", none, none⟩]⟩ :=
  ⟨matcher_strategy_precedence.1 exOwnerFP exTableFP false _ "Function" _ (by decide),
   matcher_strategy_precedence.2.1 exOwnerP exTableP false _ "param_id" _
     (by decide) (by decide),
   matcher_strategy_precedence.2.2.1 exOwnerP exTableP false _ "log" _
     (by decide) (by decide) (by decide)⟩

/-- C3: the linear-form validator accepts the annotated token stream of
`id0 - 3*id1 - 3.5*id1 + 3.14e2*id3`, accepts the empty stream as
vacuously linear, and rejects every stream obtained from the valid stream
by deleting exactly one token. -/
theorem linear_validator_minimality :
    WcExpr.linValid linStreamEx = true
    ∧ WcExpr.linValid [] = true
    ∧ (List.range linStreamEx.length).all
        (fun i => !(WcExpr.linValid (linStreamEx.eraseIdx i))) = true := by
  refine ⟨by decide, by decide, by decide⟩

/-- C9: with case-fold matching enabled, a bare identifier with exactly
one case-folded match among the referenceable categories resolves to the
stored identifier of that category, and the annotated token preserves the
original source casing; in particular `PARAM_ID` resolves to the stored
identifier `param_id` with token string `PARAM_ID`. -/
theorem case_fold_resolution :
    (∀ (o : WcExpr.Owner) (t : WcExpr.SymbolTable) (x : String)
        (rest : List WcExpr.LexToken) (c s : String),
      WcExpr.bareMatches o t true x = [(c, s)] →
      WcExpr.relatedObjId o t true (.name x :: rest)
        = .found ⟨1, [⟨.objId, x, some c, some s⟩]⟩)
    ∧ WcExpr.tokenize exOwnerP exTableP true [.name "PARAM_ID"]
      = .ok ([⟨.objId, "PARAM_ID", some "Parameter", some "param_id"⟩],
             [("Parameter", "param_id")]) := by
  refine ⟨?_, by decide⟩
  intro o t x rest c s h
  simp [WcExpr.relatedObjId, h]

/-- Witness for C9: the general statement evaluated at `PARAM_ID` against
the stored identifier `param_id`. -/
theorem case_fold_resolution_witness :
    WcExpr.relatedObjId exOwnerP exTableP true [.name "PARAM_ID"]
      = .found ⟨1, [⟨.objId, "PARAM_ID", some "Parameter", some "param_id"⟩]⟩ :=
  case_fold_resolution.1 exOwnerP exTableP "PARAM_ID" [] "Parameter" "param_id" (by decide)

/-- C10: `ObjectiveFunction.deserialize` applied to the value `None`
returns `(None, None)` and leaves the objects registry unchanged: no
objective function is created and no error is reported. -/
theorem objective_function_none_deserialize :
    ∀ (objs : WcCore.OFObjects),
      WcCore.ObjectiveFunction.deserialize none objs = ((none, none), objs) :=
  fun _ => rfl

/-- C2: a bare identifier (a name position where the disambiguation
strategy does not match) that resolves in two or more of the categories
the owner may reference makes the bare-identifier strategy fail with an
ambiguous-identifier error enumerating every matching `(category, id)`
pair, and the whole parse of any lexed stream whose classifier walk
reaches that position fails with that message in its aggregate error list,
producing no annotated stream. -/
theorem bare_identifier_ambiguity :
    ∀ (o : WcExpr.Owner) (t : WcExpr.SymbolTable) (cf : Bool) (x : String)
      (l rest : List WcExpr.LexToken),
      2 ≤ (WcExpr.bareMatches o t cf x).length →
      WcExpr.badTokens l = [] →
      WcExpr.Scans o t cf l (.name x :: rest) →
      WcExpr.disambigId o t cf (.name x :: rest) = .noMatch →
      WcExpr.relatedObjId o t cf (.name x :: rest)
          = .err [WcExpr.ambiguousMsg x (WcExpr.bareMatches o t cf x)]
      ∧ (∀ c s, (c, s) ∈ WcExpr.bareMatches o t cf x ↔
          c ∈ o.allowed ∧ WcExpr.lookupId t c x cf = some s)
      ∧ WcExpr.tokenize o t cf l
          = .error (WcExpr.tokenizeAux o t cf l).2
      ∧ WcExpr.ambiguousMsg x (WcExpr.bareMatches o t cf x)
          ∈ (WcExpr.tokenizeAux o t cf l).2 := by
  intro o t cf x l rest hlen hbad hscan hdis
  have hrel : WcExpr.relatedObjId o t cf (.name x :: rest)
      = .err [WcExpr.ambiguousMsg x (WcExpr.bareMatches o t cf x)] := by
    rcases hbm : WcExpr.bareMatches o t cf x with _ | ⟨p, ps⟩
    · rw [hbm] at hlen; simp at hlen
    · rcases ps with _ | ⟨q, qs⟩
      · rw [hbm] at hlen; simp at hlen
      · simp [WcExpr.relatedObjId, hbm]
  have hdispatch : WcExpr.dispatch o t cf x (.name x :: rest)
      = .errs ([WcExpr.ambiguousMsg x (WcExpr.bareMatches o t cf x)]
          ++ (WcExpr.funcCallId o (.name x :: rest)).errsOf) := by
    simp [WcExpr.dispatch, hdis, hrel]
  have hhead : WcExpr.ambiguousMsg x (WcExpr.bareMatches o t cf x)
      ∈ (WcExpr.tokenizeAux o t cf (.name x :: rest)).2 := by
    rw [WcExpr.tokenizeAux]
    simp only [WcExpr.tokAux, hdispatch]
    exact List.mem_append_left _ (List.mem_cons_self _ _)
  have hmem := WcExpr.scans_errs o t cf hscan _ hhead
  have hne : (WcExpr.tokenizeAux o t cf l).2 ≠ [] := List.ne_nil_of_mem hmem
  refine ⟨hrel, ?_, ?_, hmem⟩
  · intro c s
    simp only [WcExpr.bareMatches, List.mem_filterMap, Option.map_eq_some']
    constructor
    · rintro ⟨a, ha, b, hb, heq⟩
      cases heq
      exact ⟨ha, hb⟩
    · rintro ⟨hc, hs⟩
      exact ⟨c, hc, s, hs, rfl⟩
  · rw [WcExpr.tokenize, hbad]
    rw [WcExpr.tokenizeAux] at hne
    simp [WcExpr.tokenizeAux, List.isEmpty_iff, hne]

/-- Witness for C2: the identifier `Observable` exists in both the
`Function` and `Parameter` categories, so parsing the bare expression
`Observable` fails with the ambiguity message naming both pairs. -/
theorem bare_identifier_ambiguity_witness :
    WcExpr.relatedObjId exOwnerFP exTableFP false [.name "Observable"]
      = .err [WcExpr.ambiguousMsg "Observable"
          (WcExpr.bareMatches exOwnerFP exTableFP false "Observable")]
    ∧ WcExpr.tokenize exOwnerFP exTableFP false [.name "Observable"]
      = .error (WcExpr.tokenizeAux exOwnerFP exTableFP false [.name "Observable"]).2 :=
  ⟨(bare_identifier_ambiguity exOwnerFP exTableFP false "Observable"
      [.name "Observable"] [] (by decide) (by decide) (.refl _) (by decide)).1,
   (bare_identifier_ambiguity exOwnerFP exTableFP false "Observable"
      [.name "Observable"] [] (by decide) (by decide) (.refl _) (by decide)).2.2.1⟩

/-- C8: an annotated stream that failed static validation (nonempty error
list from parsing) has no compiled form, and evaluating it fails fast with
the distinct not-successfully-parsed error for every function binding and
value substitution, without executing the expression. -/
theorem failed_parse_eval_guard :
    ∀ (o : WcExpr.Owner) (t : WcExpr.SymbolTable) (cf : Bool) (s : String)
      (p : WcExpr.ParsedState),
      WcExpr.parseString o t cf s = .ok (.ok p) →
      p.errors ≠ [] →
      p.compiled = none
      ∧ ∀ fns vals, WcExpr.testEval p fns vals
          = .error (WcExpr.notCompiledMsg p.expression) := by
  intro o t cf s p hps herr
  rcases hmk : WcExpr.mkParsed s with e | toks
  · simp only [WcExpr.parseString, hmk] at hps
    simp at hps
  · simp only [WcExpr.parseString, hmk] at hps
    rcases het : WcExpr.engineTokenize o t cf toks with exn | inner
    · simp only [het] at hps
      simp at hps
    · simp only [het] at hps
      rcases inner with es | res
      · simp only [Except.ok.injEq] at hps
        subst hps
        exact ⟨rfl, fun fns vals => rfl⟩
      · simp only [Except.ok.injEq] at hps
        subst hps
        exact absurd rfl herr

/-- Witness for C8: `foo(6)` fails static validation because `foo` is not
whitelisted, and evaluating the failed state returns the distinct
not-compiled error. -/
theorem failed_parse_eval_guard_witness :
    WcExpr.parseString exOwnerFP exTableFP false "foo(6)" = .ok (.ok exFailedState)
    ∧ WcExpr.testEval exFailedState (fun _ _ => none) (fun _ _ => none)
      = .error (WcExpr.notCompiledMsg exFailedState.expression) :=
  ⟨by decide,
   (failed_parse_eval_guard exOwnerFP exTableFP false "foo(6)" exFailedState
      (by decide) (by decide)).2 _ _⟩

/-- C5 counterexample: the expression ` 1 ` (with surrounding spaces) is
accepted by `ObjectiveFunction.deserialize`, but serializing the created
object returns the original un-stripped string ` 1 `, not the stripped
`1`. -/
theorem serialize_not_stripped_counterexample :
    WcCore.ObjectiveFunction.deserialize (some " 1 ") exOFEmpty
      = ((some ⟨" 1 ", [], [], 0⟩, none),
         ⟨[], [], [(" 1 ", ⟨" 1 ", [], [], 0⟩)], 1⟩)
    ∧ WcCore.ObjectiveFunction.serialize ⟨" 1 ", [], [], 0⟩ ≠ WcExpr.strip " 1 " := by
  refine ⟨by decide, by decide⟩

/-- C5 amended: for every expression string accepted by the deserializer
(over a well-formed interning store), serializing the parsed object
returns exactly the original input string, unchanged. -/
theorem serialize_returns_original :
    (∀ (v : String) (r r2 : WcCore.OFObjects) (o : WcCore.ObjectiveFunctionObj),
      OFStoreWF r →
      WcCore.ObjectiveFunction.deserialize (some v) r = ((some o, none), r2) →
      WcCore.ObjectiveFunction.serialize o = v)
    ∧ (∀ (ow : WcExpr.Owner) (t : WcExpr.SymbolTable) (v : String)
        (r r2 : WcCore.FEObjects) (o : WcCore.FunctionExpressionObj),
      FEStoreWF r →
      WcCore.FunctionExpression.deserialize ow t v r = .ok ((some o, none), r2) →
      WcCore.FunctionExpression.serialize o = v) := by
  constructor
  · intro v r r2 o hwf h
    simp only [WcCore.ObjectiveFunction.deserialize] at h
    split at h
    · split at h
      · rename_i e heq
        have ho : e.2 = o := by
          have := congrArg (fun z => z.1.1) h
          simpa using this
        have he1 : (e.1 == v) = true := by simpa using List.find?_some heq
        have hmem := List.mem_of_find?_eq_some heq
        rw [WcCore.ObjectiveFunction.serialize, ← ho, hwf e hmem]
        exact eq_of_beq he1
      · have ho := congrArg (fun z => z.1.1) h
        simp only [Option.some.injEq] at ho
        rw [WcCore.ObjectiveFunction.serialize, ← ho]
    · simp at h
  · intro ow t v r r2 o hwf h
    rcases hmk : WcExpr.parseString ow t false v with e | inner
    · simp only [WcCore.FunctionExpression.deserialize, hmk] at h
      simp at h
    · simp only [WcCore.FunctionExpression.deserialize, hmk] at h
      rcases inner with exn | p
      · simp at h
      · rcases hot : p.objTokens with _ | ts
        · simp only [hot] at h
          simp at h
        · simp only [hot] at h
          split at h
          · rename_i e heq
            simp only [Except.ok.injEq] at h
            have ho : e.2 = o := by
              have := congrArg (fun z => z.1.1) h
              simpa using this
            have he1 : (e.1 == v) = true := by simpa using List.find?_some heq
            have hmem := List.mem_of_find?_eq_some heq
            rw [WcCore.FunctionExpression.serialize, ← ho, hwf e hmem]
            exact eq_of_beq he1
          · simp only [Except.ok.injEq] at h
            have ho := congrArg (fun z => z.1.1) h
            simp only [Option.some.injEq] at ho
            rw [WcCore.FunctionExpression.serialize, ← ho]

/-- Witness for C5 (amended): serializing the objective function created
from `rxn_1` returns `rxn_1`. -/
theorem serialize_returns_original_witness :
    WcCore.ObjectiveFunction.serialize exOFObj = "rxn_1" :=
  serialize_returns_original.1 "rxn_1" exOFObjects exOFObjects2 exOFObj
    (fun p hp => absurd hp (List.not_mem_nil p)) (by decide)

/-- C6: deserializing the same expression string a second time against the
registry produced by a successful first deserialization returns the
identical interned instance keyed by the expression string and leaves the
registry unchanged — no second equal object is constructed.  Stated for
`ObjectiveFunction.deserialize` and, for every owner contract and symbol
table, for `FunctionExpression.deserialize`. -/
theorem deserialize_interning :
    (∀ (v : String) (r r2 : WcCore.OFObjects) (o : WcCore.ObjectiveFunctionObj),
      WcCore.ObjectiveFunction.deserialize (some v) r = ((some o, none), r2) →
      WcCore.ObjectiveFunction.deserialize (some v) r2 = ((some o, none), r2))
    ∧ (∀ (ow : WcExpr.Owner) (t : WcExpr.SymbolTable) (v : String)
        (r r2 : WcCore.FEObjects) (o : WcCore.FunctionExpressionObj),
      WcCore.FunctionExpression.deserialize ow t v r = .ok ((some o, none), r2) →
      WcCore.FunctionExpression.deserialize ow t v r2 = .ok ((some o, none), r2)) := by
  constructor
  · intro v r r2 o h
    simp only [WcCore.ObjectiveFunction.deserialize] at h ⊢
    split at h
    · rename_i hemp
      split at h
      · rename_i e heq
        have hr : r = r2 := congrArg (fun z => z.2) h
        subst hr
        rw [if_pos hemp, heq]
        have ho : e.2 = o := by
          have := congrArg (fun z => z.1.1) h
          simpa using this
        simp [ho]
      · have hob := congrArg (fun z => z.1.1) h
        simp only [Option.some.injEq] at hob
        have hr := congrArg (fun z => z.2) h
        dsimp only at hr
        subst hr
        dsimp only
        rw [if_pos hemp]
        simp [List.find?, ← hob]
    · simp at h
  · intro ow t v r r2 o h
    rcases hmk : WcExpr.parseString ow t false v with e | inner
    · simp only [WcCore.FunctionExpression.deserialize, hmk] at h
      simp at h
    · simp only [WcCore.FunctionExpression.deserialize, hmk] at h
      rcases inner with exn | p
      · simp at h
      · rcases hot : p.objTokens with _ | ts
        · simp only [hot] at h
          simp at h
        · simp only [hot] at h
          simp only [WcCore.FunctionExpression.deserialize, hmk, hot]
          split at h
          · rename_i e heq
            simp only [Except.ok.injEq] at h
            have hr : r = r2 := congrArg (fun z => z.2) h
            subst hr
            rw [heq]
            have ho : e.2 = o := by
              have := congrArg (fun z => z.1.1) h
              simpa using this
            simp [ho]
          · simp only [Except.ok.injEq] at h
            have hob := congrArg (fun z => z.1.1) h
            simp only [Option.some.injEq] at hob
            have hr := congrArg (fun z => z.2) h
            dsimp only at hr
            subst hr
            dsimp only
            simp [List.find?, ← hob]

/-- Witness for C6: deserializing `rxn_1` against the registry that
already interns it returns the same instance and the same registry. -/
theorem deserialize_interning_witness :
    WcCore.ObjectiveFunction.deserialize (some "rxn_1") exOFObjects2
      = ((some exOFObj, none), exOFObjects2) :=
  deserialize_interning.1 "rxn_1" exOFObjects exOFObjects2 exOFObj (by decide)

lemma species_deserialize_rleStore (m : String) (env : WcCore.RLEnv) :
    (WcCore.Species.deserialize m env).2.rleStore = env.rleStore := by
  simp only [WcCore.Species.deserialize]
  repeat' split
  all_goals rfl

lemma collectModifiers_rleStore :
    ∀ (ms : List String) (env : WcCore.RLEnv),
      (WcCore.collectModifiers env ms).2.2.rleStore = env.rleStore := by
  intro ms
  induction ms with
  | nil => intro env; rfl
  | cons m ms ih =>
    intro env
    rcases hsd : WcCore.Species.deserialize m env with ⟨⟨r, e⟩, env2⟩
    have hst : env2.rleStore = env.rleStore := by
      have := species_deserialize_rleStore m env
      rw [hsd] at this
      exact this
    rcases r with _ | tag
    · simp only [WcCore.collectModifiers, hsd]
      rw [ih env2, hst]
    · simp only [WcCore.collectModifiers, hsd]
      rw [ih env2, hst]

/-- C7: every successfully deserialized rate-law equation has modifier and
parameter lists without duplicate objects; when the equation is created
fresh (not returned from the interning store), each list contains exactly
the objects resolved in order from the expression string and lists them in
strictly increasing order of first occurrence. -/
theorem rate_law_dedupe_order :
    ∀ (v : String) (env env2 : WcCore.RLEnv) (o : WcCore.RateLawEquationObj),
      RLEStoreWF env →
      WcCore.RateLawEquation.deserialize v env = ((some o, none), env2) →
      (o.modifiers.Nodup ∧ o.parameters.Nodup)
      ∧ ((WcCore.collectModifiers env (WcCore.findModifierIds v)).2.2.rleStore.find?
            (fun e => e.1 == v) = none →
          (∀ x, x ∈ o.modifiers ↔
            x ∈ (WcCore.collectModifiers env (WcCore.findModifierIds v)).1)
          ∧ o.modifiers.Pairwise (fun a b =>
              (WcCore.collectModifiers env (WcCore.findModifierIds v)).1.indexOf a
                < (WcCore.collectModifiers env (WcCore.findModifierIds v)).1.indexOf b)
          ∧ (∀ x, x ∈ o.parameters ↔
              x ∈ (WcCore.collectParameters
                    (WcCore.collectModifiers env (WcCore.findModifierIds v)).2.2
                    (WcCore.findParameterIds v)).1)
          ∧ o.parameters.Pairwise (fun a b =>
              (WcCore.collectParameters
                (WcCore.collectModifiers env (WcCore.findModifierIds v)).2.2
                (WcCore.findParameterIds v)).1.indexOf a
                < (WcCore.collectParameters
                    (WcCore.collectModifiers env (WcCore.findModifierIds v)).2.2
                    (WcCore.findParameterIds v)).1.indexOf b)) := by
  intro v env env2 o hwf h
  simp only [WcCore.RateLawEquation.deserialize] at h
  split at h
  · split at h
    · rename_i e heq
      have ho : e.2 = o := by
        have := congrArg (fun z => z.1.1) h
        simpa using this
      have hmem : e ∈ env.rleStore := by
        rw [collectModifiers_rleStore] at heq
        exact List.mem_of_find?_eq_some heq
      constructor
      · rw [← ho]
        exact hwf e hmem
      · intro hnone
        rw [hnone] at heq
        cases heq
    · have hob := congrArg (fun z => z.1.1) h
      simp only [Option.some.injEq] at hob
      rw [← hob]
      refine ⟨⟨detDedupe_nodup _, detDedupe_nodup _⟩, ?_⟩
      intro _
      exact ⟨fun x => mem_detDedupe x _, detDedupe_pairwise _,
             fun x => mem_detDedupe x _, detDedupe_pairwise _⟩
  · simp at h

/-- Witness for C7: the equation `s1[c] + p1 + s1[c]` references the
species `s1[c]` twice; the deserialized modifier and parameter lists are
duplicate-free. -/
theorem rate_law_dedupe_order_witness :
    exRLEObj.modifiers.Nodup ∧ exRLEObj.parameters.Nodup :=
  (rate_law_dedupe_order "s1[c] + p1 + s1[c]" exRLEnv exRLEnv2 exRLEObj
    (fun p hp => absurd hp (List.not_mem_nil p)) (by decide)).1

lemma ofProcessIds_errs_subset (rIds bIds : List String) (v : String) :
    ∀ (ids errs rs bs : List String) (e : String), e ∈ errs →
      e ∈ (WcCore.ofProcessIds rIds bIds v ids errs rs bs).1 := by
  intro ids
  induction ids with
  | nil => intro errs rs bs e he; exact he
  | cons id ids ih =>
    intro errs rs bs e he
    rw [WcCore.ofProcessIds]
    split
    · exact ih errs rs bs e he
    · exact ih _ _ _ e (List.mem_append_left _ (List.mem_append_left _ he))

lemma ofProcessIds_missing_mem (rIds bIds : List String) (v : String) :
    ∀ (ids errs rs bs : List String) (id : String), id ∈ ids →
      id ∉ WcCore.validFunctionNames → id ∉ rIds → id ∉ bIds →
      WcCore.notAReactionMsg id v ∈ (WcCore.ofProcessIds rIds bIds v ids errs rs bs).1 := by
  intro ids
  induction ids with
  | nil => intro errs rs bs id hmem; cases hmem
  | cons hd ids ih =>
    intro errs rs bs id hmem hnf hnr hnb
    rcases List.mem_cons.mp hmem with rfl | hmem
    · rw [WcCore.ofProcessIds]
      rw [if_neg hnf]
      refine ofProcessIds_errs_subset rIds bIds v ids _ _ _ _ ?_
      refine List.mem_append_right _ ?_
      rw [if_pos ⟨hnr, hnb⟩]
      exact List.mem_singleton.mpr rfl
    · rw [WcCore.ofProcessIds]
      split
      · exact ih errs rs bs id hmem hnf hnr hnb
      · exact ih _ _ _ id hmem hnf hnr hnb

lemma ofProcessIds_ambig_mem (rIds bIds : List String) (v : String) :
    ∀ (ids errs rs bs : List String) (id : String), id ∈ ids →
      id ∉ WcCore.validFunctionNames → id ∈ rIds → id ∈ bIds →
      WcCore.ambigReactionBiomassMsg id v
        ∈ (WcCore.ofProcessIds rIds bIds v ids errs rs bs).1 := by
  intro ids
  induction ids with
  | nil => intro errs rs bs id hmem; cases hmem
  | cons hd ids ih =>
    intro errs rs bs id hmem hnf hr hb
    rcases List.mem_cons.mp hmem with rfl | hmem
    · rw [WcCore.ofProcessIds]
      rw [if_neg hnf]
      refine ofProcessIds_errs_subset rIds bIds v ids _ _ _ _ ?_
      refine List.mem_append_left _ (List.mem_append_right _ ?_)
      rw [if_pos ⟨hr, hb⟩]
      exact List.mem_singleton.mpr rfl
    · rw [WcCore.ofProcessIds]
      split
      · exact ih errs rs bs id hmem hnf hr hb
      · exact ih _ _ _ id hmem hnf hr hb

/-- C4 counterexample: deserializing the expression `4 *` raises a host
`SyntaxError` out of tokenization (the `Except.error` channel of the
deserializer) instead of returning the aggregate failure value, refuting
the claim that static validation of an invalid expression never raises. -/
theorem validation_raises_counterexample :
    WcCore.FunctionExpression.deserialize exOwnerFP exTableFP "4 *" exFEEmpty
      = .error (.syntaxError "unexpected EOF while parsing") := by decide

/-- C4 amended: every static-validation error other than a host-grammar
syntax error — bad tokens, unresolved identifiers, ambiguous identifiers,
disallowed disambiguation types — is collected and returned to the caller
in one aggregate list of failure values, and tokenization raises only for
a stream that fails the host-grammar compile check: (1) an exception from
the engine tokenizer implies the stream failed the host-grammar check and
is exactly the syntax error; (2) every error collected at any position the
classifier walk reaches is in the final aggregate list; (3)
`ObjectiveFunction.deserialize` always returns either a parsed object or a
nonempty aggregate error list, never raising; (4) every unresolved
identifier and (5) every reaction/biomass-reaction ambiguity contributes
its message to that aggregate list. -/
theorem validation_error_aggregation :
    (∀ (o : WcExpr.Owner) (t : WcExpr.SymbolTable) (cf : Bool)
        (toks : List WcExpr.LexToken) (exn : WcExpr.PyExn),
      WcExpr.engineTokenize o t cf toks = .error exn →
      WcExpr.pyCompileOk toks = false
        ∧ exn = .syntaxError "unexpected EOF while parsing")
    ∧ (∀ (o : WcExpr.Owner) (t : WcExpr.SymbolTable) (cf : Bool)
        (l s : List WcExpr.LexToken),
      WcExpr.Scans o t cf l s →
      ∀ e ∈ (WcExpr.tokenizeAux o t cf s).2, e ∈ (WcExpr.tokenizeAux o t cf l).2)
    ∧ (∀ (v : String) (objs : WcCore.OFObjects),
      (∃ o objs2, WcCore.ObjectiveFunction.deserialize (some v) objs
          = ((some o, none), objs2))
      ∨ (∃ es, WcCore.ObjectiveFunction.deserialize (some v) objs
          = ((none, some es), objs) ∧ es ≠ []))
    ∧ (∀ (v : String) (objs : WcCore.OFObjects) (id : String),
      id ∈ WcCore.findIdentifiers v → id ∉ WcCore.validFunctionNames →
      id ∉ objs.reactionIds → id ∉ objs.biomassReactionIds →
      ∃ es, WcCore.ObjectiveFunction.deserialize (some v) objs
          = ((none, some es), objs) ∧ WcCore.notAReactionMsg id v ∈ es)
    ∧ (∀ (v : String) (objs : WcCore.OFObjects) (id : String),
      id ∈ WcCore.findIdentifiers v → id ∉ WcCore.validFunctionNames →
      id ∈ objs.reactionIds → id ∈ objs.biomassReactionIds →
      ∃ es, WcCore.ObjectiveFunction.deserialize (some v) objs
          = ((none, some es), objs)
        ∧ WcCore.ambigReactionBiomassMsg id v ∈ es) := by
  refine ⟨?_, ?_, ?_, ?_, ?_⟩
  · intro o t cf toks exn h
    simp only [WcExpr.engineTokenize] at h
    split at h
    · split at h
      · split at h
        · cases h
        · rename_i hpy
          refine ⟨by simpa using hpy, ?_⟩
          cases h
          rfl
      · cases h
    · cases h
  · intro o t cf l s hscan
    exact WcExpr.scans_errs o t cf hscan
  · intro v objs
    simp only [WcCore.ObjectiveFunction.deserialize]
    split
    · split
      · exact Or.inl ⟨_, _, rfl⟩
      · exact Or.inl ⟨_, _, rfl⟩
    · rename_i hne
      refine Or.inr ⟨_, rfl, ?_⟩
      simpa [List.isEmpty_iff] using hne
  · intro v objs id hmem hnf hnr hnb
    have hin : WcCore.notAReactionMsg id v
        ∈ WcCore.ofErrors objs.reactionIds objs.biomassReactionIds v :=
      List.mem_append_right _
        (ofProcessIds_missing_mem objs.reactionIds objs.biomassReactionIds v
          (WcCore.findIdentifiers v) [] [] [] id hmem hnf hnr hnb)
    have hne : (WcCore.ofErrors objs.reactionIds objs.biomassReactionIds v).isEmpty
        = false := by
      rcases hof : WcCore.ofErrors objs.reactionIds objs.biomassReactionIds v with _ | ⟨a, as⟩
      · rw [hof] at hin; cases hin
      · rfl
    refine ⟨_, ?_, hin⟩
    simp only [WcCore.ObjectiveFunction.deserialize, hne]
    rfl
  · intro v objs id hmem hnf hr hb
    have hin : WcCore.ambigReactionBiomassMsg id v
        ∈ WcCore.ofErrors objs.reactionIds objs.biomassReactionIds v :=
      List.mem_append_right _
        (ofProcessIds_ambig_mem objs.reactionIds objs.biomassReactionIds v
          (WcCore.findIdentifiers v) [] [] [] id hmem hnf hr hb)
    have hne : (WcCore.ofErrors objs.reactionIds objs.biomassReactionIds v).isEmpty
        = false := by
      rcases hof : WcCore.ofErrors objs.reactionIds objs.biomassReactionIds v with _ | ⟨a, as⟩
      · rw [hof] at hin; cases hin
      · rfl
    refine ⟨_, ?_, hin⟩
    simp only [WcCore.ObjectiveFunction.deserialize, hne]
    rfl

/-- Witness for C4 (amended): the engine exception on tokenizing `4 *`
pins the host-grammar failure as the only raising path. -/
theorem validation_error_aggregation_witness :
    WcExpr.pyCompileOk (WcExpr.lex "4 *") = false
    ∧ WcExpr.PyExn.syntaxError "unexpected EOF while parsing"
      = .syntaxError "unexpected EOF while parsing" :=
  validation_error_aggregation.1 exOwnerFP exTableFP false (WcExpr.lex "4 *")
    (.syntaxError "unexpected EOF while parsing") (by decide)
